import Mathlib

/-!
# PromiseExtension — shallow embedding

A Lean model of `src/PromiseExtension.js`: the combinators `Promise.some`,
`Promise.none`, `Promise.try` and `Promise.prototype.always`, together with
the event-loop facts they rely on.

The model of asynchrony: every genuine input promise is described by the
settlement it will eventually perform (fulfil or reject, payload, and the
time at which it settles).  A combinator invocation first runs its executor
synchronously, then the scheduler delivers the settlement events of the
input promises in time order to the handlers the executor attached.
A result promise settles at most once: the first call to resolve or reject
wins, later calls are no-ops.
-/

/-- JavaScript runtime values, as far as the combinators inspect them.
`func n` is an opaque function value distinguished by an identifier. -/
inductive JSVal : Type
  | str : String → JSVal
  | num : Int → JSVal
  | infinity : JSVal
  | list : List JSVal → JSVal
  | func : Nat → JSVal
  | undef : JSVal

/-- The JS `typeof` operator on the modelled values. -/
def jsTypeof : JSVal → String
  | .str _ => "string"
  | .num _ => "number"
  | .infinity => "number"
  | .list _ => "object"
  | .func _ => "function"
  | .undef => "undefined"

/-- JS truthiness of the modelled values. -/
def truthy : JSVal → Bool
  | .str s => !s.isEmpty
  | .num n => n != 0
  | .infinity => true
  | .list _ => true
  | .func _ => true
  | .undef => false

/-- JS `isFinite` (which coerces its argument to a number first).  The
string/array numeric coercions are modelled only for the empty cases that
coerce to 0; no claim evaluates this function on other such inputs. -/
def isFiniteJS : JSVal → Bool
  | .num _ => true
  | .infinity => false
  | .str s => s.isEmpty
  | .list l => l.isEmpty
  | .func _ => false
  | .undef => false

/-- The eventual settlement of one genuine input promise: whether it
fulfils (`ok = true`) or rejects, the value or reason it settles with,
and the time at which it settles. -/
structure Op : Type where
  ok : Bool
  payload : JSVal
  time : Nat

/-- One element of the array passed to `Promise.some`: either a genuine
promise or an arbitrary non-promise value (`instanceof Promise` fails). -/
inductive Elem : Type
  | promise : Op → Elem
  | value : JSVal → Elem

def Elem.isPromise : Elem → Bool
  | .promise _ => true
  | .value _ => false

def Elem.op? : Elem → Option Op
  | .promise o => Option.some o
  | .value _ => Option.none

/-- The settled state of a promise. -/
inductive Outcome : Type
  | success : JSVal → Outcome
  | failure : JSVal → Outcome

/-- The payload a settled promise carries, whichever way it settled. -/
def Outcome.settledPayload : Outcome → JSVal
  | .success v => v
  | .failure r => r

namespace Promise

/-- The rejection reason `Promise.some` uses for a non-promise element. -/
def validationMsg : JSVal := JSVal.str "Only Promises can be used with Promise.some()"

/-- Single-settlement: the first call to resolve or reject wins, any later
settlement attempt is a no-op. -/
def settleOnce (st : Option Outcome) (o : Outcome) : Option Outcome :=
  match st with
  | Option.some r => Option.some r
  | Option.none => Option.some o

/-- One iteration of the executor's `for` loop of `Promise.some`: an
element that is `instanceof Promise` gets its handlers attached (no
settlement), any other element triggers `reject("Only Promises can be
used with Promise.some()")`. -/
def syncStep (st : Option Outcome) (e : Elem) : Option Outcome :=
  match e with
  | Elem.promise _ => st
  | Elem.value _ => settleOnce st (Outcome.failure validationMsg)

/-- The synchronous part of the executor of `Promise.some`: the
`for (var i = promises.length; i--;)` loop runs from the last index down
to index 0.  All of this happens before any input promise's handlers can
fire. -/
def syncPhase (arr : List Elem) : Option Outcome :=
  arr.reverse.foldl syncStep Option.none

/-- Closure state of one `Promise.some` invocation: `reasons`,
`rejectionCount`, and the settled state of the returned promise. -/
structure SomeState : Type where
  reasons : List JSVal
  rejectionCount : Nat
  settled : Option Outcome

/-- Delivery of one settlement event to the handlers attached by
`promises[i].then(resolve, rejectLastFailure)`: a fulfilment calls
`resolve` with the value; a rejection runs `rejectLastFailure`, which
pushes the reason, increments `rejectionCount`, and calls
`reject(reasons)` once the count reaches `promises.length`. -/
def deliver (total : Nat) (st : SomeState) (o : Op) : SomeState :=
  if o.ok then
    { st with settled := settleOnce st.settled (Outcome.success o.payload) }
  else
    let reasons := st.reasons ++ [o.payload]
    let cnt := st.rejectionCount + 1
    { reasons := reasons
      rejectionCount := cnt
      settled :=
        if cnt = total then settleOnce st.settled (Outcome.failure (JSVal.list reasons))
        else st.settled }

/-- Settlement ordering of events: earlier settlement time first. -/
def timeLE (a b : Op) : Prop := a.time ≤ b.time

instance : DecidableRel timeLE := fun a b => Nat.decLe a.time b.time

instance : IsTotal Op timeLE := ⟨fun a b => Nat.le_total a.time b.time⟩

instance : IsTrans Op timeLE := ⟨fun _ _ _ hab hbc => Nat.le_trans hab hbc⟩

/-- The settlement events a call to `Promise.some` will observe: one per
genuine promise element, delivered in settlement-time order (stable, so
simultaneous settlements keep input order). -/
def someEvents (arr : List Elem) : List Op :=
  List.insertionSort timeLE (arr.filterMap Elem.op?)

/-- The state of a `Promise.some` invocation right after its executor
returned: empty reason log, no rejections counted, and the returned
promise already rejected if the synchronous loop saw a non-promise. -/
def someInit (arr : List Elem) : SomeState :=
  { reasons := [], rejectionCount := 0, settled := syncPhase arr }

/-- `Promise.some(promises)`, evaluated against the event-loop model.
`Option.none` as input models an absent (`undefined`) argument; an
`Option.none` result models a promise that never settles. -/
def some (input : Option (List Elem)) : Option Outcome :=
  match input with
  | Option.none => Option.some (Outcome.success (JSVal.list []))
  | Option.some arr =>
    if arr.length = 0 then Option.some (Outcome.success (JSVal.list []))
    else ((someEvents arr).foldl (deliver arr.length) (someInit arr)).settled

/-- `Promise.none(promises)`: `Promise.some(promises).then(reject, resolve)` —
a pure continuation swap over `Promise.some`. -/
def none (input : Option (List Elem)) : Option Outcome :=
  match Promise.some input with
  | Option.none => Option.none
  | Option.some (Outcome.success v) => Option.some (Outcome.failure v)
  | Option.some (Outcome.failure r) => Option.some (Outcome.success r)

end Promise

namespace Promise

/-- How a call to `Promise.try` concludes, as seen by its caller: a
returned promise that is already resolved or already rejected, or a
synchronous exception thrown out of the call. -/
inductive TryOutcome : Type
  | resolved : JSVal → TryOutcome
  | rejected : JSVal → TryOutcome
  | thrown : JSVal → TryOutcome

/-- A whole run of `Promise.try`: its outcome plus the observable effort
it spent — how many times the factory argument was invoked, how many
attempts were started, and how many durations of the timeout schedule
were consumed. -/
structure TryRun : Type where
  outcome : TryOutcome
  factoryCalls : Nat
  attemptsStarted : Nat
  scheduleConsumed : Nat

/-- The timeout guard inside `timeoutPromiseFactory`, exactly as written:
`typeof timeToWait === "Number" && !timeToWait && isFinite(timeToWait)`.
Only when it holds is a rejecting timeout promise scheduled. -/
def timeoutGuard (timeToWait : JSVal) : Bool :=
  jsTypeof timeToWait == "Number" && !truthy timeToWait && isFiniteJS timeToWait

/-- `Promise.try(fn, time, attempts)`.  The guard
`typeof fn !== "Function"` compares against the capitalized tag, which
`typeof` (here `jsTypeof`) never produces, so the early branch always
runs and returns `Promise.resolve(fn)` — `fn` is never invoked, no
attempt starts, and the timeout schedule is untouched.  Were the
`attempt` branch ever reached, it would throw a `TypeError`
synchronously: `timeoutPromiseFactory()` is evaluated before
`Promise.race`, and it either calls `.pop()` on a non-array `time` or
(since the timeout guard above can never hold) evaluates
`new Promise()` with no executor argument; `fn` itself is still never
invoked, because `Promise.race([fn, ...])` races `fn` as a plain value
rather than calling it. -/
def «try» (fn time attempts : JSVal) : TryRun :=
  if jsTypeof fn ≠ "Function" then
    { outcome := TryOutcome.resolved fn
      factoryCalls := 0
      attemptsStarted := 0
      scheduleConsumed := 0 }
  else
    { outcome := TryOutcome.thrown (JSVal.str "TypeError")
      factoryCalls := 0
      attemptsStarted := 1
      scheduleConsumed := 0 }

/-- The completion of a continuation callback: it can return a plain
value, return a promise (which the chained promise adopts), or throw. -/
inductive ContResult : Type
  | ret : JSVal → ContResult
  | retOp : Outcome → ContResult
  | thrw : JSVal → ContResult

/-- The settlement the chained promise adopts from a handler's completion. -/
def runHandler : ContResult → Outcome
  | ContResult.ret v => Outcome.success v
  | ContResult.retOp o => o
  | ContResult.thrw e => Outcome.failure e

/-- `then` on a settled promise: exactly one of the two handlers fires,
with the settled payload, and the returned promise adopts that handler's
own completion.  The second component records the argument list of the
handler invocations that occurred. -/
def thenOn (p : Outcome) (onOk onErr : JSVal → ContResult) : Outcome × List JSVal :=
  match p with
  | Outcome.success v => (runHandler (onOk v), [v])
  | Outcome.failure r => (runHandler (onErr r), [r])

/-- `Promise.prototype.always`: `this.then(fn, fn)`. -/
def always (p : Outcome) (fn : JSVal → ContResult) : Outcome × List JSVal :=
  thenOn p fn fn

end Promise

namespace Promise

theorem settleOnce_some (r : Outcome) (o : Outcome) :
    settleOnce (Option.some r) o = Option.some r := rfl

theorem deliver_settled (total : Nat) (st : SomeState) (o : Op) (r : Outcome)
    (h : st.settled = Option.some r) : (deliver total st o).settled = Option.some r := by
  unfold deliver
  by_cases ho : o.ok <;> simp [ho, h, settleOnce]

theorem foldl_deliver_settled (total : Nat) :
    ∀ (evs : List Op) (st : SomeState) (r : Outcome), st.settled = Option.some r →
      (evs.foldl (deliver total) st).settled = Option.some r
  | [], _, _, h => h
  | e :: rest, st, r, h => by
    simpa [List.foldl_cons] using
      foldl_deliver_settled total rest (deliver total st e) r (deliver_settled total st e r h)

theorem foldl_syncStep_some :
    ∀ (l : List Elem) (x : Outcome), l.foldl syncStep (Option.some x) = Option.some x
  | [], _ => rfl
  | e :: rest, x => by
    cases e <;> simp [List.foldl_cons, syncStep, settleOnce, foldl_syncStep_some rest x]

theorem foldl_syncStep_invalid :
    ∀ (l : List Elem), l.any (fun e => !e.isPromise) = true →
      l.foldl syncStep Option.none = Option.some (Outcome.failure validationMsg) := by
  intro l
  induction l with
  | nil => intro h; simp at h
  | cons e rest ih =>
    intro h
    cases e with
    | promise o =>
      have : rest.any (fun e => !e.isPromise) = true := by
        simpa [Elem.isPromise] using h
      simpa [List.foldl_cons, syncStep] using ih this
    | value v =>
      simp [List.foldl_cons, syncStep, settleOnce, foldl_syncStep_some]

theorem syncPhase_invalid (arr : List Elem)
    (h : arr.any (fun e => !e.isPromise) = true) :
    syncPhase arr = Option.some (Outcome.failure validationMsg) := by
  apply foldl_syncStep_invalid
  rw [List.any_eq_true] at h ⊢
  simpa [List.mem_reverse] using h

theorem foldl_syncStep_promises :
    ∀ (l : List Elem) (st : Option Outcome), (∀ e ∈ l, e.isPromise = true) →
      l.foldl syncStep st = st
  | [], _, _ => rfl
  | e :: rest, st, h => by
    cases e with
    | promise o =>
      have := foldl_syncStep_promises rest st (fun x hx => h x (List.mem_cons_of_mem _ hx))
      simpa [List.foldl_cons, syncStep] using this
    | value v =>
      have := h (Elem.value v) (List.mem_cons_self _ _)
      simp [Elem.isPromise] at this

theorem syncPhase_promises (arr : List Elem)
    (h : ∀ e ∈ arr, e.isPromise = true) : syncPhase arr = Option.none := by
  exact foldl_syncStep_promises _ _ (fun e he => h e (List.mem_reverse.mp he))

theorem filterMap_op_map_promise :
    ∀ (ops : List Op), (ops.map Elem.promise).filterMap Elem.op? = ops
  | [] => rfl
  | o :: rest => by
    simp [List.filterMap_cons, Elem.op?, filterMap_op_map_promise rest]

end Promise

namespace Promise

theorem deliver_not_ok (total : Nat) (st : SomeState) (o : Op) (h : o.ok = false) :
    deliver total st o =
      { reasons := st.reasons ++ [o.payload]
        rejectionCount := st.rejectionCount + 1
        settled :=
          if st.rejectionCount + 1 = total
          then settleOnce st.settled (Outcome.failure (JSVal.list (st.reasons ++ [o.payload])))
          else st.settled } := by
  simp [deliver, h]

theorem foldl_deliver_first_success (total : Nat) :
    ∀ (evs : List Op) (st : SomeState) (s : Op),
      st.settled = Option.none →
      st.rejectionCount + evs.length = total →
      evs.find? (fun o => o.ok) = Option.some s →
      (evs.foldl (deliver total) st).settled = Option.some (Outcome.success s.payload)
  | [], _, _, _, _, hfind => by simp at hfind
  | e :: rest, st, s, hset, hcount, hfind => by
    by_cases he : e.ok
    · have hes : e = s := by
        rw [List.find?_cons_of_pos _ (by simpa using he)] at hfind
        exact Option.some.inj hfind
      have hsok : s.ok = true := by rw [← hes]; simpa using he
      have hstep : (deliver total st e).settled = Option.some (Outcome.success s.payload) := by
        rw [hes]
        simp [deliver, hsok, hset, settleOnce]
      simpa [List.foldl_cons] using
        foldl_deliver_settled total rest (deliver total st e) _ hstep
    · rw [List.find?_cons_of_neg _ (by simpa using he)] at hfind
      have hrest : rest ≠ [] := by
        intro hnil
        rw [hnil] at hfind
        simp at hfind
      have hlen : 1 ≤ rest.length := by
        cases rest with
        | nil => exact absurd rfl hrest
        | cons a t => simp
      simp only [List.length_cons] at hcount
      have hne : ¬ (st.rejectionCount + 1 = total) := by
        intro hEq
        omega
      have hstep : (deliver total st e).settled = Option.none := by
        simp [deliver, he, hne, hset]
      have hcnt : (deliver total st e).rejectionCount = st.rejectionCount + 1 := by
        simp [deliver, he]
      have hcount' : (deliver total st e).rejectionCount + rest.length = total := by
        rw [hcnt]
        omega
      simpa [List.foldl_cons] using
        foldl_deliver_first_success total rest (deliver total st e) s hstep hcount' hfind

theorem foldl_deliver_all_fail (total : Nat) :
    ∀ (evs : List Op) (st : SomeState),
      st.settled = Option.none →
      (∀ o ∈ evs, o.ok = false) →
      st.rejectionCount + evs.length = total →
      evs ≠ [] →
      (evs.foldl (deliver total) st).settled =
        Option.some (Outcome.failure (JSVal.list (st.reasons ++ evs.map Op.payload)))
  | [], _, _, _, _, hne => absurd rfl hne
  | e :: rest, st, hset, hall, hcount, _ => by
    have he : e.ok = false := hall e (List.mem_cons_self _ _)
    cases rest with
    | nil =>
      have htot : st.rejectionCount + 1 = total := by
        simpa using hcount
      simp [List.foldl_cons, deliver, he, htot, hset, settleOnce]
    | cons a t =>
      have hne : ¬ (st.rejectionCount + 1 = total) := by
        simp only [List.length_cons] at hcount
        omega
      have hstep : (deliver total st e).settled = Option.none := by
        simp [deliver, he, hne, hset]
      have hcount' : (deliver total st e).rejectionCount + (a :: t).length = total := by
        rw [deliver_not_ok total st e he]
        simp only [List.length_cons] at hcount ⊢
        omega
      have hall' : ∀ o ∈ a :: t, o.ok = false :=
        fun o ho => hall o (List.mem_cons_of_mem _ ho)
      have hres := foldl_deliver_all_fail total (a :: t) (deliver total st e)
        hstep hall' hcount' (by simp)
      have hreasons : (deliver total st e).reasons = st.reasons ++ [e.payload] := by
        simp [deliver, he]
      rw [List.foldl_cons, hres, hreasons]
      simp

theorem foldl_deliver_unsettled (total : Nat) :
    ∀ (evs : List Op) (st : SomeState),
      st.settled = Option.none →
      (∀ o ∈ evs, o.ok = false) →
      st.rejectionCount + evs.length < total →
      (evs.foldl (deliver total) st).settled = Option.none
  | [], _, hset, _, _ => hset
  | e :: rest, st, hset, hall, hcount => by
    have he : e.ok = false := hall e (List.mem_cons_self _ _)
    have hne : ¬ (st.rejectionCount + 1 = total) := by
      simp only [List.length_cons] at hcount
      omega
    have hstep : (deliver total st e).settled = Option.none := by
      simp [deliver, he, hne, hset]
    have hcount' : (deliver total st e).rejectionCount + rest.length < total := by
      rw [deliver_not_ok total st e he]
      simp only [List.length_cons] at hcount ⊢
      omega
    have hall' : ∀ o ∈ rest, o.ok = false :=
      fun o ho => hall o (List.mem_cons_of_mem _ ho)
    simpa [List.foldl_cons] using
      foldl_deliver_unsettled total rest (deliver total st e) hstep hall' hcount'

theorem find?_min_of_sorted :
    ∀ (l : List Op), List.Sorted timeLE l →
      ∀ (s : Op), l.find? (fun o => o.ok) = Option.some s →
        ∀ o ∈ l, o.ok = true → s.time ≤ o.time
  | [], _, s, hfind => by simp at hfind
  | a :: t, hsort, s, hfind => by
    rw [List.sorted_cons] at hsort
    obtain ⟨hhead, htail⟩ := hsort
    by_cases ha : a.ok
    · rw [List.find?_cons_of_pos _ (by simpa using ha)] at hfind
      have has : a = s := Option.some.inj hfind
      intro o ho _
      rcases List.mem_cons.mp ho with h | h
      · rw [← has, h]
      · rw [← has]
        exact hhead o h
    · rw [List.find?_cons_of_neg _ (by simpa using ha)] at hfind
      intro o ho hok
      rcases List.mem_cons.mp ho with h | h
      · rw [h] at hok
        exact absurd hok ha
      · exact find?_min_of_sorted t htail s hfind o h hok

end Promise

namespace Promise

theorem someInit_promises (ops : List Op) :
    someInit (ops.map Elem.promise) =
      { reasons := [], rejectionCount := 0, settled := Option.none } := by
  unfold someInit
  rw [syncPhase_promises]
  intro e he
  rcases List.mem_map.mp he with ⟨o, _, rfl⟩
  rfl

theorem someEvents_promises (ops : List Op) :
    someEvents (ops.map Elem.promise) = List.insertionSort timeLE ops := by
  unfold someEvents
  rw [filterMap_op_map_promise]

theorem some_map_promise (ops : List Op) (hne : ops ≠ []) :
    Promise.some (Option.some (ops.map Elem.promise)) =
      ((List.insertionSort timeLE ops).foldl (deliver ops.length)
        { reasons := [], rejectionCount := 0, settled := Option.none }).settled := by
  have hlen0 : ¬ ((ops.map Elem.promise).length = 0) := by
    rw [List.length_map]
    intro h
    exact hne (List.length_eq_zero.mp h)
  simp only [Promise.some]
  rw [if_neg hlen0, someEvents_promises, someInit_promises, List.length_map]

theorem some_invalid (arr : List Elem)
    (h : arr.any (fun e => !e.isPromise) = true) :
    Promise.some (Option.some arr) = Option.some (Outcome.failure validationMsg) := by
  have hne : arr ≠ [] := by
    intro hnil
    rw [hnil] at h
    simp at h
  have hlen : ¬ (arr.length = 0) := by
    intro h0
    exact hne (List.length_eq_zero.mp h0)
  have hsync : (someInit arr).settled = Option.some (Outcome.failure validationMsg) := by
    simpa [someInit] using syncPhase_invalid arr h
  simp only [Promise.some]
  rw [if_neg hlen]
  exact foldl_deliver_settled _ _ _ _ hsync

end Promise

open Promise in
/-- C1: for a non-empty array whose elements are all genuine promises and
in which at least one eventually fulfils, `Promise.some` settles
successfully with the value of the first operation to succeed in
settlement (chronological) order — the first fulfilment in the
time-ordered event sequence — regardless of the operations' positions in
the input array.  The hypothesis picks out that first success as the
first `ok` event of `someEvents`; the conclusion shows it is a success
of minimal settlement time among all successes, and that `Promise.some`
resolves with its value. -/
theorem some_first_success (ops : List Op) (s : Op)
    (hne : ops ≠ [])
    (hfind : (someEvents (ops.map Elem.promise)).find? (fun o => o.ok) = Option.some s) :
    s.ok = true ∧
    (∀ o ∈ ops, o.ok = true → s.time ≤ o.time) ∧
    Promise.some (Option.some (ops.map Elem.promise)) =
      Option.some (Outcome.success s.payload) := by
  rw [someEvents_promises] at hfind
  refine ⟨by simpa using List.find?_some hfind, ?_, ?_⟩
  · intro o ho hok
    exact find?_min_of_sorted _ (List.sorted_insertionSort timeLE ops) s hfind o
      ((List.mem_insertionSort timeLE).mpr ho) hok
  · rw [some_map_promise ops hne]
    apply foldl_deliver_first_success ops.length _ _ s rfl _ hfind
    show 0 + (List.insertionSort timeLE ops).length = ops.length
    rw [List.length_insertionSort]
    omega

/-- Concrete input for C1: success "A" at t=30, failure "B" at t=10,
success "C" at t=20; the first chronological success is "C". -/
def opsC1 : List Op :=
  [⟨true, JSVal.str "A", 30⟩, ⟨false, JSVal.str "B", 10⟩, ⟨true, JSVal.str "C", 20⟩]

/-- Witness for C1 at `opsC1`. -/
theorem some_first_success_witness :
    opsC1 ≠ [] ∧
    (Promise.someEvents (opsC1.map Elem.promise)).find? (fun o => o.ok) =
      Option.some ⟨true, JSVal.str "C", 20⟩ ∧
    ((⟨true, JSVal.str "C", 20⟩ : Op).ok = true ∧
      (∀ o ∈ opsC1, o.ok = true → (⟨true, JSVal.str "C", 20⟩ : Op).time ≤ o.time) ∧
      Promise.some (Option.some (opsC1.map Elem.promise)) =
        Option.some (Outcome.success (JSVal.str "C"))) :=
  ⟨by simp [opsC1], rfl,
    some_first_success opsC1 ⟨true, JSVal.str "C", 20⟩ (by simp [opsC1]) rfl⟩

open Promise in
/-- C2: for a non-empty array of genuine promises all of which eventually
reject, `Promise.some` rejects, and the rejection payload is the list of
all the reasons in settlement (time) order — the payloads of
`someEvents`, not the input order.  Moreover the result is unsettled
after every strict prefix of the event sequence: rejection happens
exactly when the rejection count reaches the number of promises. -/
theorem some_all_fail (ops : List Op)
    (hne : ops ≠ [])
    (hall : ops.all (fun o => !o.ok) = true) :
    Promise.some (Option.some (ops.map Elem.promise)) =
      Option.some (Outcome.failure
        (JSVal.list ((someEvents (ops.map Elem.promise)).map Op.payload))) ∧
    (List.range (someEvents (ops.map Elem.promise)).length).all
      (fun k =>
        (((someEvents (ops.map Elem.promise)).take k).foldl
            (deliver (ops.map Elem.promise).length)
            (someInit (ops.map Elem.promise))).settled.isNone) = true := by
  have hallfail : ∀ o ∈ List.insertionSort timeLE ops, o.ok = false := by
    intro o ho
    have := List.all_eq_true.mp hall o ((List.mem_insertionSort timeLE).mp ho)
    simpa using this
  have hlen : (List.insertionSort timeLE ops).length = ops.length :=
    List.length_insertionSort timeLE ops
  have hsne : List.insertionSort timeLE ops ≠ [] := by
    intro h0
    apply hne
    rw [← List.length_eq_zero, ← hlen, h0]
    rfl
  constructor
  · rw [some_map_promise ops hne, someEvents_promises]
    rw [foldl_deliver_all_fail ops.length _ _ rfl hallfail
      (by show 0 + (List.insertionSort timeLE ops).length = ops.length; rw [hlen]; omega) hsne]
    simp
  · rw [List.all_eq_true]
    intro k hk
    rw [List.mem_range] at hk
    rw [someEvents_promises] at hk ⊢
    have hunset :
        (((List.insertionSort timeLE ops).take k).foldl
            (deliver ops.length)
            (someInit (ops.map Elem.promise))).settled = Option.none := by
      rw [someInit_promises]
      apply foldl_deliver_unsettled ops.length _ _ rfl
      · intro o ho
        exact hallfail o (List.take_subset k _ ho)
      · show 0 + ((List.insertionSort timeLE ops).take k).length < ops.length
        rw [List.length_take, hlen]
        omega
    simp [hunset]

/-- Concrete input for C2: rejections "y" at t=20, "x" at t=10, "z" at
t=30, listed in that (non-chronological) input order; the aggregated
reason list comes out in settlement order "x", "y", "z". -/
def opsC2 : List Op :=
  [⟨false, JSVal.str "y", 20⟩, ⟨false, JSVal.str "x", 10⟩, ⟨false, JSVal.str "z", 30⟩]

/-- Witness for C2 at `opsC2`: the rejection payload is the settlement
order ["x","y","z"], not the input order ["y","x","z"]. -/
theorem some_all_fail_witness :
    opsC2 ≠ [] ∧
    opsC2.all (fun o => !o.ok) = true ∧
    (Promise.some (Option.some (opsC2.map Elem.promise)) =
        Option.some (Outcome.failure
          (JSVal.list [JSVal.str "x", JSVal.str "y", JSVal.str "z"])) ∧
      (List.range (Promise.someEvents (opsC2.map Elem.promise)).length).all
        (fun k =>
          (((Promise.someEvents (opsC2.map Elem.promise)).take k).foldl
              (Promise.deliver (opsC2.map Elem.promise).length)
              (Promise.someInit (opsC2.map Elem.promise))).settled.isNone) = true) :=
  ⟨by simp [opsC2], rfl, some_all_fail opsC2 (by simp [opsC2]) rfl⟩

open Promise in
/-- C5: for every input and payload, `Promise.none` settles successfully
exactly when `Promise.some` settles with failure and vice versa, with the
payloads swapped: `none`'s success value is `some`'s rejection reason
list and `none`'s failure reason is `some`'s success value. -/
theorem none_negates_some (input : Option (List Elem)) (p : JSVal) :
    (Promise.none input = Option.some (Outcome.success p) ↔
      Promise.some input = Option.some (Outcome.failure p)) ∧
    (Promise.none input = Option.some (Outcome.failure p) ↔
      Promise.some input = Option.some (Outcome.success p)) := by
  unfold Promise.none
  rcases hs : Promise.some input with _ | o
  · simp
  · rcases o with v | r <;> simp

open Promise in
/-- C6: if the input array contains any element that is not a genuine
promise, the executor's synchronous loop already rejects the result with
the validation message, and the overall `Promise.some` result is that
validation failure regardless of how the genuine promise elements later
settle — the synchronous rejection wins the race. -/
theorem some_nonPromise_rejects (arr : List Elem)
    (h : arr.any (fun e => !e.isPromise) = true) :
    syncPhase arr = Option.some (Outcome.failure validationMsg) ∧
    Promise.some (Option.some arr) = Option.some (Outcome.failure validationMsg) :=
  ⟨syncPhase_invalid arr h, some_invalid arr h⟩

/-- Concrete input for C6: a non-promise number next to a promise that
fulfils quickly with "A"; validation still wins. -/
def arrC6 : List Elem :=
  [Elem.value (JSVal.num 1), Elem.promise ⟨true, JSVal.str "A", 5⟩]

/-- Witness for C6 at `arrC6`. -/
theorem some_nonPromise_rejects_witness :
    arrC6.any (fun e => !e.isPromise) = true ∧
    (Promise.syncPhase arrC6 = Option.some (Outcome.failure Promise.validationMsg) ∧
      Promise.some (Option.some arrC6) =
        Option.some (Outcome.failure Promise.validationMsg)) :=
  ⟨rfl, some_nonPromise_rejects arrC6 rfl⟩

open Promise in
/-- C7: `always` fires its callback exactly once, with the settled value
on the success path and the settled reason on the failure path, and the
promise it returns adopts the callback's own completion (a thrown error
rejects it, a returned value fulfils it) — it neither swallows errors
nor forces success. -/
theorem always_both_paths (p : Outcome) (fn : JSVal → ContResult) :
    (always p fn).2 = [p.settledPayload] ∧
    (always p fn).1 = runHandler (fn p.settledPayload) := by
  cases p <;> exact ⟨rfl, rfl⟩

/-- C8: `Promise.some` applied to an absent (undefined) argument and to
an empty array both settle successfully, immediately, with an empty
array. -/
theorem some_vacuous :
    Promise.some Option.none = Option.some (Outcome.success (JSVal.list [])) ∧
    Promise.some (Option.some []) = Option.some (Outcome.success (JSVal.list [])) :=
  ⟨rfl, rfl⟩

open Promise in
/-- C9: `typeof` never yields the capitalized tag "Function", so for every
argument `fn` (functions included) `Promise.try` takes the early-return
branch and returns a promise already resolved with `fn` itself — the
factory is never invoked, no attempt starts, and the timeout schedule is
untouched. -/
theorem try_never_runs_factory (fn time attempts : JSVal) :
    jsTypeof fn ≠ "Function" ∧
    Promise.«try» fn time attempts =
      { outcome := TryOutcome.resolved fn
        factoryCalls := 0
        attemptsStarted := 0
        scheduleConsumed := 0 } := by
  have h : jsTypeof fn ≠ "Function" := by
    cases fn <;> simp [jsTypeof]
  exact ⟨h, by simp [Promise.«try», h]⟩

open Promise in
/-- C3 (failing input): a factory that would always reject with "e",
passed with `maxAttempts = 2`, is supposed by the spec to be invoked
three times and end in rejection with ["e","e","e"]; instead
`Promise.try` resolves immediately with the factory itself, invoking it
zero times — the `typeof fn !== "Function"` guard can never pass. -/
theorem try_exhaustion_bug :
    Promise.«try» (JSVal.func 0) JSVal.undef (JSVal.num 2) =
      { outcome := TryOutcome.resolved (JSVal.func 0)
        factoryCalls := 0
        attemptsStarted := 0
        scheduleConsumed := 0 } := rfl

open Promise in
/-- C4 (failing input): a factory raced against a 100ms per-attempt
timeout with `maxAttempts = 1` is supposed by the spec to fail after two
timed-out attempts; instead `Promise.try` resolves immediately with the
factory, starting no attempt and no timeout.  Moreover the timeout guard
`typeof timeToWait === "Number" && !timeToWait && isFinite(timeToWait)`
is unsatisfiable for every value, so no timeout promise could ever be
scheduled even if an attempt ran. -/
theorem try_timeout_bug :
    Promise.«try» (JSVal.func 1) (JSVal.num 100) (JSVal.num 1) =
      { outcome := TryOutcome.resolved (JSVal.func 1)
        factoryCalls := 0
        attemptsStarted := 0
        scheduleConsumed := 0 } ∧
    ∀ v : JSVal, timeoutGuard v = false := by
  refine ⟨rfl, ?_⟩
  intro v
  cases v <;> rfl

open Promise in
/-- C10: for every input array containing a non-promise element,
`Promise.none` settles successfully, and its success value is the
string `Promise.some` uses to reject non-promise input — so a caller of
`none` cannot tell a validation error from the all-rejected outcome by
branch alone. -/
theorem none_nonPromise_resolves (arr : List Elem)
    (h : arr.any (fun e => !e.isPromise) = true) :
    Promise.none (Option.some arr) = Option.some (Outcome.success validationMsg) := by
  unfold Promise.none
  rw [some_invalid arr h]

/-- Concrete input for C10: a genuine rejecting promise next to an
`undefined` element. -/
def arrC10 : List Elem :=
  [Elem.promise ⟨false, JSVal.str "r", 1⟩, Elem.value JSVal.undef]

/-- Witness for C10 at `arrC10`. -/
theorem none_nonPromise_resolves_witness :
    arrC10.any (fun e => !e.isPromise) = true ∧
    Promise.none (Option.some arrC10) =
      Option.some (Outcome.success Promise.validationMsg) :=
  ⟨rfl, none_nonPromise_resolves arrC10 rfl⟩
